import Mathlib

/-!
Verification development for the db-privacy-analyzer repository.

The program inspects a relational database schema, asks a language model to
classify each column for privacy attributes, parses the model's free-text
reply into per-column records (`gemini_client.GeminiClient._parse_analysis`),
and flattens the records into spreadsheet rows
(`sheet_handler.ExcelGenerator._create_detailed_analysis_sheet`).

Below, the Python string operations used by the code are embedded as
structurally recursive functions over `List Char` (so that every definition
evaluates inside the kernel), Python dicts become ordered association lists
with Python's update-in-place/append-at-end semantics, and the possibly
raising list indexing `split(':', 1)[1]` is embedded fallibly (`Option`) with
a separate total version proved equivalent.
-/

namespace DBPrivacy

/-- Python `str.strip()` whitespace set: space, tab, newline, carriage
return, vertical tab, form feed. -/
def pyIsSpace (c : Char) : Bool :=
  c == ' ' || c == '\t' || c == '\n' || c == '\r' || c == '\x0b' || c == '\x0c'

/-- Python `str.strip()`: drop leading and trailing whitespace. -/
def pyStrip (s : String) : String :=
  String.mk (((s.data.dropWhile pyIsSpace).reverse.dropWhile pyIsSpace).reverse)

/-- Python `str.lower()` (the inputs of interest are ASCII). -/
def pyLower (s : String) : String :=
  String.mk (s.data.map Char.toLower)

/-- Does the first list occur at the head of the second? -/
def listStartsWith : List Char → List Char → Bool
  | [], _ => true
  | _ :: _, [] => false
  | p :: pt, c :: ct => p == c && listStartsWith pt ct

/-- Does the first list occur contiguously anywhere in the second? -/
def listHasInfix (pat : List Char) : List Char → Bool
  | [] => pat.isEmpty
  | c :: tl => listStartsWith pat (c :: tl) || listHasInfix pat tl

/-- Python substring test `sub in s`. -/
def pyIn (sub s : String) : Bool :=
  listHasInfix sub.data s.data

/-- Python `':' in s`. -/
def hasColon (s : String) : Bool :=
  s.data.contains ':'

/-- Python `s.split('\n')`: split on every newline, keeping empty pieces
(`''.split('\n') == ['']`). -/
def splitNl : List Char → List (List Char)
  | [] => [[]]
  | c :: tl =>
    if c = '\n' then [] :: splitNl tl
    else
      match splitNl tl with
      | [] => [[c]]
      | h :: t => (c :: h) :: t

/-- The line list the parser iterates over: `analysis.split('\n')`. -/
def pySplitLines (s : String) : List String :=
  (splitNl s.data).map String.mk

/-- Python `s.split(':', 1)`: at most one split, at the first colon; a
string with no colon yields a one-element list. -/
def splitOnceColon (s : String) : List String :=
  if hasColon s then
    [String.mk (s.data.takeWhile (fun c => c != ':')),
     String.mk ((s.data.dropWhile (fun c => c != ':')).tail)]
  else [s]

/-- A Python dict with string keys, as an insertion-ordered association
list. Keys are unique by construction of every dict below. -/
abbrev PyDict (α : Type) := List (String × α)

/-- Python `d[k] = v`: replace in place if the key is present, else append
at the end (insertion order preserved). -/
def dictSet {α : Type} : PyDict α → String → α → PyDict α
  | [], k, v => [(k, v)]
  | (k0, v0) :: tl, k, v =>
    if k0 = k then (k, v) :: tl else (k0, v0) :: dictSet tl k v

/-- Python `d.get(k)` / key lookup, returning `none` when the key is
absent. -/
def pyGet? {α : Type} : PyDict α → String → Option α
  | [], _ => none
  | (k0, v0) :: tl, k => if k0 = k then some v0 else pyGet? tl k

/-- One parsed classification record: the working dict of
`_parse_analysis`, values are plain strings. -/
abbrev Rec := PyDict String

/-- The default record `_parse_analysis` starts from and resets to: all
nine fields bound to the empty string. -/
def initParsed : Rec :=
  [("column", ""), ("description", ""), ("type", ""), ("collection", ""),
   ("data source", ""), ("purpose", ""), ("legal basis", ""),
   ("personal data", ""), ("personal information", "")]

/-- The nine keys of a parsed record, in insertion order. -/
def canonKeys : List String :=
  ["column", "description", "type", "collection", "data source", "purpose",
   "legal basis", "personal data", "personal information"]

/-- The `elif` chain of `_parse_analysis` on one (already stripped) line:
the first recognized field marker wins; each branch requires both the
lowercased substring match and a colon in the line. -/
def classify (line : String) : Option String :=
  if pyIn "column" (pyLower line) && hasColon line then some "column"
  else if pyIn "description" (pyLower line) && hasColon line then some "description"
  else if pyIn "type" (pyLower line) && hasColon line then some "type"
  else if pyIn "collection" (pyLower line) && hasColon line then some "collection"
  else if pyIn "data source" (pyLower line) && hasColon line then some "data source"
  else if pyIn "purpose" (pyLower line) && hasColon line then some "purpose"
  else if pyIn "legal basis" (pyLower line) && hasColon line then some "legal basis"
  else if pyIn "personal data" (pyLower line) && hasColon line then some "personal data"
  else if pyIn "personal information" (pyLower line) && hasColon line then some "personal information"
  else none

/-- Which field (if any) a raw input line is recognized as: the line is
first stripped, as in the loop body of `_parse_analysis`. -/
def lineField (rawLine : String) : Option String :=
  classify (pyStrip rawLine)

/-- The value a recognized line stores: `line.split(':', 1)[1].strip()`
(total version; the fallible indexing is `stepE` below). -/
def lineVal (rawLine : String) : String :=
  pyStrip ((splitOnceColon (pyStrip rawLine)).getD 1 "")

/-- Parser state: the accumulated `parsed_dictionaries` list and the
current working dict `parsed`. -/
abbrev PState := List Rec × Rec

/-- One loop iteration of `_parse_analysis`, with the possibly raising
list indexing `split(':', 1)[1]` embedded as an `Option`: `none` is an
uncaught `IndexError`. A line recognized as `personal information` flushes
the working record and resets it to the default dict. -/
def stepE (st : PState) (rawLine : String) : Option PState :=
  let line := pyStrip rawLine
  match classify line with
  | none => some st
  | some f =>
    match (splitOnceColon line)[1]? with
    | none => none
    | some v =>
      let parsed := dictSet st.2 f (pyStrip v)
      if f = "personal information" then some (st.1 ++ [parsed], initParsed)
      else some (st.1, parsed)

/-- Total version of `stepE` (proved equivalent in `stepE_eq_stepT`). -/
def stepT (st : PState) (rawLine : String) : PState :=
  match lineField rawLine with
  | none => st
  | some f =>
    let parsed := dictSet st.2 f (lineVal rawLine)
    if f = "personal information" then (st.1 ++ [parsed], initParsed)
    else (st.1, parsed)

/-- The parser run over an explicit line list (total form). -/
def parseLines (ls : List String) : List Rec :=
  (ls.foldl stepT ([], initParsed)).1

/-- `GeminiClient._parse_analysis`, total form: split the reply on
newlines, run the line loop, return the accumulated record list. -/
def parse_analysis (analysis : String) : List Rec :=
  parseLines (pySplitLines analysis)

/-- `GeminiClient._parse_analysis` with the fallible indexing made
explicit: `none` means the Python code would raise. -/
def parseAnalysisE (analysis : String) : Option (List Rec) :=
  ((pySplitLines analysis).foldlM stepE ([], initParsed)).map Prod.fst

/-! ### `gemini_client.analyze_table_schema_data` and the main loop

`analyze_table_schema_data` wraps the external model call in a catch-all:
an API failure (or any exception) yields `None`; a reply text yields the
parse result. The external call outcome is the input here: `none` models a
failed call, `some text` a reply. -/

/-- `GeminiClient.analyze_table_schema_data`: `None` on any exception,
otherwise the parsed record list (possibly empty). -/
def analyze_table_schema_data (modelReply : Option String) : Option (List Rec) :=
  match modelReply with
  | none => none
  | some text => some (parse_analysis text)

/-- One element of `main._process_schema_with_ai`'s accumulated result
list: a dict with keys `table_name` and `column_report`. -/
structure AiResult where
  table_name : String
  column_report : List Rec
deriving Repr, DecidableEq

/-- `PrivacyAnalyzer._process_schema_with_ai`: one model call per table
(the reply outcome is paired with the table name); the Python truthiness
test `if classification:` keeps a table only when the classification is
neither `None` nor the empty list. -/
def process_schema_with_ai (tables : List (String × Option String)) : List AiResult :=
  tables.foldl
    (fun acc t =>
      match analyze_table_schema_data t.2 with
      | none => acc
      | some cls => if cls = [] then acc else acc ++ [⟨t.1, cls⟩])
    []

/-! ### `sheet_handler.ExcelGenerator._create_detailed_analysis_sheet`

Python values reaching the sheet builder may be `None`; a cell value is
modelled as `Option String` with `none` for Python `None`. The external
append-only log file (`utils.append_to_file` on `"Ai Analysis errors.txt"`)
is modelled as the ordered list of lines appended to it. -/

/-- A spreadsheet row or a raw analysis record as seen by the sheet
builder: a dict whose values may be Python `None`. -/
abbrev ORow := PyDict (Option String)

/-- The `required_fields` dict of `_create_detailed_analysis_sheet`:
field name, default value. -/
def required_fields : List (String × String) :=
  [("Column", ""), ("Description", ""), ("Data Type", ""),
   ("Collection Method", ""), ("Data Source", ""), ("Primary Purpose", ""),
   ("Legal Basis", ""), ("Personal Data", ""), ("Personal Information", "")]

/-- The diagnostic line appended to `"Ai Analysis errors.txt"`. -/
def missingFieldMsg (field table : String) : String :=
  "Required field \x27" ++ field ++ "\x27 for table: " ++ table ++
    " is missing from the AI analysis output."

/-- The inner loop of `_create_detailed_analysis_sheet` for one
`column_item`: build `row_data` (starting from the `Table` cell) and the
list of diagnostic lines appended while building it. For each required
field, `value = column_item.get(field, default)`; only a value that is
Python `None` triggers the diagnostic; the value is stored either way. -/
def buildRow (table : String) (column_item : ORow) : ORow × List String :=
  required_fields.foldl
    (fun acc fd =>
      let value := (pyGet? column_item fd.1).getD (some fd.2)
      ((dictSet acc.1 fd.1 value),
        if value = none then acc.2 ++ [missingFieldMsg fd.1 table] else acc.2))
    ([("Table", some table)], [])

/-- One entry of the `ai_analysis` list handed to the sheet builder:
`item.get('table_name', '')` and `item["column_report"]`. -/
structure AnalysisItem where
  table_name : String
  column_report : List ORow
deriving Repr, DecidableEq

/-- `_create_detailed_analysis_sheet`: the rows of the detailed sheet in
order, together with the lines appended to the external diagnostic log. -/
def create_detailed_analysis_sheet (ai_analysis : List AnalysisItem) :
    List ORow × List String :=
  ai_analysis.foldl
    (fun acc item =>
      item.column_report.foldl
        (fun acc2 ci =>
          let rl := buildRow item.table_name ci
          (acc2.1 ++ [rl.1], acc2.2 ++ rl.2))
        acc)
    ([], [])

/-- A parser record handed to the sheet builder: Python strings are never
`None`, so every value is injected with `some`. -/
def injectRec (d : Rec) : ORow :=
  d.map (fun kv => (kv.1, some kv.2))

/-- The hand-off from `_process_schema_with_ai` to `generate_report`. -/
def injectResults (rs : List AiResult) : List AnalysisItem :=
  rs.map (fun r => ⟨r.table_name, r.column_report.map injectRec⟩)

/-! ### `config.ConfigHandler` and startup (`main.PrivacyAnalyzer`)

The process environment is a function from variable names to
`Option String` (`os.getenv`). -/

/-- `ConfigHandler.get_credentials`: the `required_vars` dict, each value
read with `os.getenv` (so `none` when the variable is unset). The function
returns this dict unconditionally — it performs no missing-value check and
never raises. -/
def get_credentials (env : String → Option String) : PyDict (Option String) :=
  [("GEMINI_API_KEY", env "GEMINI_API_KEY"),
   ("DB_USER", env "DB_USER"),
   ("DB_HOST", env "DB_HOST"),
   ("DB_PASSWORD", env "DB_PASSWORD"),
   ("DB_DATABASE", env "DB_DATABASE")]

/-- `PrivacyAnalyzer._load_config`: returns the credentials dict; the
`except` branch is unreachable because `get_credentials` is total. -/
def load_config (env : String → Option String) : PyDict (Option String) :=
  get_credentials env

/-- The component handles `_setup_components` builds before any catalog
query or model call: the four database parameters and the model API key,
exactly as read from the config dict (possibly Python `None`). -/
structure Components where
  database_username : Option String
  database_password : Option String
  database_hostname : Option String
  database_name : Option String
  api_key : Option String
deriving Repr, DecidableEq

/-- `PrivacyAnalyzer._setup_components`: the `self.config[...]` subscript
accesses raise `KeyError` (modelled as `Except.error`) only when a key is
absent from the config dict; the constructors merely store the values, and
`GeminiClient.connect` swallows every exception and returns a `bool`, so
no missing *value* stops the startup. -/
def setup_components (config : PyDict (Option String)) :
    Except String Components :=
  match pyGet? config "DB_DATABASE", pyGet? config "DB_USER",
        pyGet? config "DB_PASSWORD", pyGet? config "DB_HOST",
        pyGet? config "GEMINI_API_KEY" with
  | some db, some u, some pw, some h, some key =>
    Except.ok ⟨u, pw, h, db, key⟩
  | _, _, _, _, _ => Except.error "KeyError"

/-- `PrivacyAnalyzer.__init__` up to the point where work (catalog
queries, model calls) would begin: load the config, set up components. -/
def startup (env : String → Option String) : Except String Components :=
  setup_components (load_config env)

/-! ### Predicates and record descriptions used by the theorems -/

/-- The structural invariant of the parser state: every accumulated record
and the working record carry exactly the nine canonical keys, in order. -/
def keysOK (st : PState) : Prop :=
  (∀ r ∈ st.1, r.map Prod.fst = canonKeys) ∧ st.2.map Prod.fst = canonKeys

/-- Every non-empty field value of the record was stored from some line of
`ls` recognized as that field. -/
def Prov (ls : List String) (d : Rec) : Prop :=
  ∀ k v, (k, v) ∈ d → v ≠ "" →
    ∃ l ∈ ls, lineField l = some k ∧ lineVal l = v

/-- Provenance of the whole parser state. -/
def ProvSt (ls : List String) (st : PState) : Prop :=
  (∀ r ∈ st.1, Prov ls r) ∧ Prov ls st.2

/-- The weaker key invariant needed for commuting updates: the working
record contains (at least) all canonical keys. -/
def keysSup (st : PState) : Prop :=
  canonKeys ⊆ st.2.map Prod.fst

/-- The record a canonical nine-line block produces: each canonical key
bound to the (stripped) text after the first colon of its line. -/
def blockRecord (b : List String) : Rec :=
  canonKeys.zip (b.map lineVal)

/-- A block is canonical when its i-th line is recognized as the i-th
canonical field (so the terminal `personal information` line is last). -/
def BlockOK (b : List String) : Prop :=
  b.map lineField = canonKeys.map some

instance decBlockOK (b : List String) : Decidable (BlockOK b) :=
  decidable_of_iff (b.map lineField = canonKeys.map some) Iff.rfl

/-! ### Helper lemmas -/

lemma classify_spec {s f : String} (h : classify s = some f) :
    f ∈ canonKeys ∧ hasColon s = true := by
  unfold classify at h
  split_ifs at h with h1 h2 h3 h4 h5 h6 h7 h8 h9 <;>
    simp only [Option.some.injEq] at h <;>
    first
      | exact absurd h (by simp)
      | (subst h; exact ⟨by decide, by simp_all [Bool.and_eq_true]⟩)

lemma classify_mem {s f : String} (h : classify s = some f) : f ∈ canonKeys :=
  (classify_spec h).1

lemma classify_hasColon {s f : String} (h : classify s = some f) :
    hasColon s = true :=
  (classify_spec h).2

lemma splitOnceColon_of_hasColon {s : String} (h : hasColon s = true) :
    splitOnceColon s =
      [String.mk (s.data.takeWhile (fun c => c != ':')),
       String.mk ((s.data.dropWhile (fun c => c != ':')).tail)] := by
  unfold splitOnceColon
  rw [if_pos h]

lemma stepE_eq_stepT (st : PState) (l : String) :
    stepE st l = some (stepT st l) := by
  unfold stepE stepT lineField lineVal
  cases hc : classify (pyStrip l) with
  | none => simp only [hc]
  | some f =>
    have hcol := classify_hasColon hc
    simp only [hc, splitOnceColon_of_hasColon hcol]
    by_cases hf : f = "personal information" <;> simp [hf, List.getD]

lemma foldlM_stepE_eq (ls : List String) :
    ∀ st : PState, ls.foldlM stepE st = some (ls.foldl stepT st) := by
  induction ls with
  | nil => intro st; rfl
  | cons a tl ih =>
    intro st
    rw [List.foldlM_cons, stepE_eq_stepT]
    simpa using ih (stepT st a)

/-! ### Dict lemmas -/

lemma dictSet_overwrite {α : Type} (d : PyDict α) (k : String) (v1 v2 : α) :
    dictSet (dictSet d k v1) k v2 = dictSet d k v2 := by
  induction d with
  | nil => simp [dictSet]
  | cons p tl ih =>
    by_cases hk : p.1 = k
    · simp [dictSet, hk]
    · simp [dictSet, hk, ih]

lemma dictSet_comm {α : Type} {d : PyDict α} {k1 k2 : String} (v1 v2 : α)
    (hne : k1 ≠ k2) (h1 : k1 ∈ d.map Prod.fst) (h2 : k2 ∈ d.map Prod.fst) :
    dictSet (dictSet d k1 v1) k2 v2 = dictSet (dictSet d k2 v2) k1 v1 := by
  induction d with
  | nil => simp at h1
  | cons p tl ih =>
    by_cases ha : p.1 = k1
    · have hpk2 : ¬ p.1 = k2 := by rw [ha]; exact hne
      simp [dictSet, ha, hpk2, hne]
    · by_cases hb : p.1 = k2
      · have hne2 : ¬ k2 = k1 := fun h => hne h.symm
        simp [dictSet, ha, hb, hne2]
      · have h1' : k1 ∈ tl.map Prod.fst := by
          rcases List.mem_map.mp h1 with ⟨q, hq, hfst⟩
          rcases List.mem_cons.mp hq with rfl | hq'
          · exact absurd hfst.symm (fun h => ha h.symm)
          · exact List.mem_map.mpr ⟨q, hq', hfst⟩
        have h2' : k2 ∈ tl.map Prod.fst := by
          rcases List.mem_map.mp h2 with ⟨q, hq, hfst⟩
          rcases List.mem_cons.mp hq with rfl | hq'
          · exact absurd hfst.symm (fun h => hb h.symm)
          · exact List.mem_map.mpr ⟨q, hq', hfst⟩
        simp [dictSet, ha, hb, ih h1' h2']

lemma dictSet_keys_superset {α : Type} (d : PyDict α) (k : String) (v : α) :
    d.map Prod.fst ⊆ (dictSet d k v).map Prod.fst := by
  induction d with
  | nil => simp [dictSet]
  | cons p tl ih =>
    by_cases hk : p.1 = k
    · simp [dictSet, hk]
    · intro x hx
      rcases List.mem_cons.mp hx with rfl | hx'
      · simp [dictSet, hk]
      · simp only [dictSet, if_neg hk, List.map_cons, List.mem_cons]
        exact Or.inr (ih hx')

lemma dictSet_keys_of_mem {α : Type} {d : PyDict α} {k : String} (v : α)
    (h : k ∈ d.map Prod.fst) :
    (dictSet d k v).map Prod.fst = d.map Prod.fst := by
  induction d with
  | nil => simp at h
  | cons p tl ih =>
    by_cases hk : p.1 = k
    · simp [dictSet, hk]
    · have h' : k ∈ tl.map Prod.fst := by
        rcases List.mem_map.mp h with ⟨q, hq, hfst⟩
        rcases List.mem_cons.mp hq with rfl | hq'
        · exact absurd hfst.symm (fun hh => hk hh.symm)
        · exact List.mem_map.mpr ⟨q, hq', hfst⟩
      simp [dictSet, hk, ih h']

lemma mem_dictSet {α : Type} {d : PyDict α} {k : String} {v : α}
    {p : String × α} (h : p ∈ dictSet d k v) : p ∈ d ∨ p = (k, v) := by
  induction d with
  | nil => simpa [dictSet] using h
  | cons q tl ih =>
    by_cases hk : q.1 = k
    · simp only [dictSet, if_pos hk] at h
      rcases List.mem_cons.mp h with rfl | h'
      · exact Or.inr rfl
      · exact Or.inl (List.mem_cons.mpr (Or.inr h'))
    · simp only [dictSet, if_neg hk] at h
      rcases List.mem_cons.mp h with rfl | h'
      · exact Or.inl (List.mem_cons.mpr (Or.inl rfl))
      · rcases ih h' with h'' | h''
        · exact Or.inl (List.mem_cons.mpr (Or.inr h''))
        · exact Or.inr h''

lemma pyGet?_eq_none {α : Type} {d : PyDict α} {k : String}
    (h : k ∉ d.map Prod.fst) : pyGet? d k = none := by
  induction d with
  | nil => rfl
  | cons p tl ih =>
    have hk : p.1 ≠ k := fun hh => h (List.mem_cons.mpr (Or.inl hh.symm))
    have h' : k ∉ tl.map Prod.fst := fun hh => h (List.mem_cons.mpr (Or.inr hh))
    simp [pyGet?, hk, ih h']

/-! ### Step lemmas for the parser loop -/

lemma initParsed_keys : initParsed.map Prod.fst = canonKeys := rfl

lemma lineField_blank : lineField "" = none := by decide

lemma stepT_skip {st : PState} {l : String} (hf : lineField l = none) :
    stepT st l = st := by
  unfold stepT; rw [hf]

lemma stepT_upd {st : PState} {l f : String} (hf : lineField l = some f)
    (hterm : f ≠ "personal information") :
    stepT st l = (st.1, dictSet st.2 f (lineVal l)) := by
  unfold stepT; rw [hf]; simp [hterm]

lemma stepT_term {st : PState} {l : String}
    (hf : lineField l = some "personal information") :
    stepT st l =
      (st.1 ++ [dictSet st.2 "personal information" (lineVal l)], initParsed) := by
  unfold stepT; rw [hf]; simp

lemma keysOK_step {st : PState} (h : keysOK st) (l : String) :
    keysOK (stepT st l) := by
  cases hf : lineField l with
  | none => rwa [stepT_skip hf]
  | some f =>
    have hfk : f ∈ canonKeys := classify_mem hf
    have hmem : f ∈ st.2.map Prod.fst := by rw [h.2]; exact hfk
    have hkeys : (dictSet st.2 f (lineVal l)).map Prod.fst = canonKeys := by
      rw [dictSet_keys_of_mem _ hmem]; exact h.2
    by_cases hterm : f = "personal information"
    · subst hterm
      rw [stepT_term hf]
      refine ⟨fun r hr => ?_, initParsed_keys⟩
      rcases List.mem_append.mp hr with hr' | hr'
      · exact h.1 r hr'
      · rcases List.mem_singleton.mp hr' with rfl
        exact hkeys
    · rw [stepT_upd hf hterm]
      exact ⟨h.1, hkeys⟩

lemma keysOK_foldl {st : PState} (h : keysOK st) (ls : List String) :
    keysOK (ls.foldl stepT st) := by
  induction ls generalizing st with
  | nil => exact h
  | cons a tl ih => exact ih (keysOK_step h a)

/-- Every record returned by the parser has exactly the nine canonical
keys, in insertion order. -/
lemma parse_analysis_keys {s : String} {r : Rec}
    (h : r ∈ parse_analysis s) : r.map Prod.fst = canonKeys := by
  have hall := @keysOK_foldl ([], initParsed)
    ⟨fun r hr => absurd hr (List.not_mem_nil r), initParsed_keys⟩
    (pySplitLines s)
  exact hall.1 r h

/-! ### Value provenance: non-default field values come from input lines -/

lemma Prov.mono {ls ls' : List String} {d : Rec} (hsub : ls ⊆ ls')
    (h : Prov ls d) : Prov ls' d := by
  intro k v hkv hv
  rcases h k v hkv hv with ⟨l, hl, hrest⟩
  exact ⟨l, hsub hl, hrest⟩

lemma Prov.initParsed (ls : List String) : Prov ls initParsed := by
  intro k v hkv hv
  apply absurd _ hv
  simp only [DBPrivacy.initParsed, List.mem_cons, Prod.mk.injEq,
    List.not_mem_nil, or_false] at hkv
  tauto

lemma ProvSt_step {ls : List String} {st : PState} (h : ProvSt ls st)
    (l : String) : ProvSt (ls ++ [l]) (stepT st l) := by
  have hsub : ls ⊆ ls ++ [l] := List.subset_append_left _ _
  have hacc : ∀ r ∈ st.1, Prov (ls ++ [l]) r :=
    fun r hr => (h.1 r hr).mono hsub
  cases hf : lineField l with
  | none => rw [stepT_skip hf]; exact ⟨hacc, h.2.mono hsub⟩
  | some f =>
    have hparsed : Prov (ls ++ [l]) (dictSet st.2 f (lineVal l)) := by
      intro k v hkv hv
      rcases mem_dictSet hkv with hkv' | hkv'
      · exact (h.2.mono hsub) k v hkv' hv
      · rcases Prod.mk.injEq .. ▸ hkv' with ⟨rfl, rfl⟩
        exact ⟨l, List.mem_append.mpr (Or.inr (List.mem_singleton.mpr rfl)),
          hf, rfl⟩
    by_cases hterm : f = "personal information"
    · subst hterm
      rw [stepT_term hf]
      refine ⟨fun r hr => ?_, (Prov.initParsed _)⟩
      rcases List.mem_append.mp hr with hr' | hr'
      · exact hacc r hr'
      · rcases List.mem_singleton.mp hr' with rfl
        exact hparsed
    · rw [stepT_upd hf hterm]
      exact ⟨hacc, hparsed⟩

lemma ProvSt_foldl {st : PState} (ls : List String) :
    ∀ (pre : List String), ProvSt pre st →
      ProvSt (pre ++ ls) (ls.foldl stepT st) := by
  induction ls generalizing st with
  | nil => intro pre h; simpa using h
  | cons a tl ih =>
    intro pre h
    have h' := ProvSt_step h a
    have := @ih (stepT st a) (pre ++ [a]) h'
    simpa [List.append_assoc] using this

/-- Every non-empty field value of a parsed record was observed on some
input line recognized as that field. -/
lemma parse_analysis_prov {s : String} {r : Rec} (h : r ∈ parse_analysis s) :
    Prov (pySplitLines s) r := by
  have hall := @ProvSt_foldl ([], initParsed) (pySplitLines s) []
    ⟨fun r hr => absurd hr (List.not_mem_nil r), Prov.initParsed _⟩
  simp only [List.nil_append] at hall
  exact hall.1 r h

/-! ### Commutation of non-terminal field lines (order-independence) -/

lemma keysSup_step {st : PState} (h : keysSup st) (l : String) :
    keysSup (stepT st l) := by
  cases hf : lineField l with
  | none => rwa [stepT_skip hf]
  | some f =>
    by_cases hterm : f = "personal information"
    · subst hterm
      rw [stepT_term hf]
      intro k hk
      rw [initParsed_keys]
      exact hk
    · rw [stepT_upd hf hterm]
      exact fun k hk => dictSet_keys_superset st.2 f (lineVal l) (h hk)

lemma keysSup_foldl {st : PState} (h : keysSup st) (ls : List String) :
    keysSup (ls.foldl stepT st) := by
  induction ls generalizing st with
  | nil => exact h
  | cons a tl ih => exact ih (keysSup_step h a)

/-- Two non-terminal lines whose recognized fields either differ or carry
the same value can be processed in either order. -/
lemma stepT_comm {x y : String} {st : PState}
    (hx : lineField x ≠ some "personal information")
    (hy : lineField y ≠ some "personal information")
    (hval : lineField x = lineField y → lineVal x = lineVal y)
    (hst : keysSup st) :
    stepT (stepT st x) y = stepT (stepT st y) x := by
  cases hfx : lineField x with
  | none => rw [stepT_skip hfx, stepT_skip hfx]
  | some f =>
    cases hfy : lineField y with
    | none => rw [stepT_skip hfy, stepT_skip hfy]
    | some g =>
      have hfterm : f ≠ "personal information" := fun hh => hx (hfx.trans (by rw [hh]))
      have hgterm : g ≠ "personal information" := fun hh => hy (hfy.trans (by rw [hh]))
      rw [stepT_upd hfx hfterm, stepT_upd hfy hgterm,
        stepT_upd hfy hgterm, stepT_upd hfx hfterm]
      by_cases hfg : f = g
      · subst hfg
        have hv : lineVal x = lineVal y := hval (hfx.trans hfy.symm)
        simp only [dictSet_overwrite, hv]
      · have hf' : f ∈ st.2.map Prod.fst := hst (classify_mem hfx)
        have hg' : g ∈ st.2.map Prod.fst := hst (classify_mem hfy)
        simp only []
        rw [dictSet_comm _ _ hfg hf' hg']

/-- Folding the parser step over a permutation of a line list containing
no terminal (`personal information`) line, where lines recognized as the
same field carry the same value, gives the same state. -/
lemma foldl_stepT_perm {l₁ l₂ : List String} (p : l₁.Perm l₂)
    (hterm : ∀ l ∈ l₁, lineField l ≠ some "personal information")
    (hval : ∀ x ∈ l₁, ∀ y ∈ l₁, lineField x = lineField y →
      lineVal x = lineVal y) :
    ∀ st : PState, keysSup st →
      l₁.foldl stepT st = l₂.foldl stepT st := by
  induction p using List.Perm.recOnSwap' with
  | nil => intro st _; rfl
  | cons x p ih =>
    intro st hst
    simp only [List.foldl_cons]
    exact ih
      (fun l hl => hterm l (List.mem_cons_of_mem _ hl))
      (fun a ha b hb => hval a (List.mem_cons_of_mem _ ha)
        b (List.mem_cons_of_mem _ hb))
      (stepT st x) (keysSup_step hst x)
  | swap' x y p ih =>
    intro st hst
    simp only [List.foldl_cons]
    rw [stepT_comm (hterm x (by simp)) (hterm y (by simp))
      (fun hh => hval x (by simp) y (by simp) hh) hst]
    exact ih
      (fun l hl => hterm l (by simp [hl]))
      (fun a ha b hb => hval a (by simp [ha]) b (by simp [hb]))
      (stepT (stepT st y) x)
      (keysSup_step (keysSup_step hst y) x)
  | trans p₁ p₂ ih₁ ih₂ =>
    intro st hst
    rw [ih₁ hterm hval st hst]
    exact ih₂
      (fun l hl => hterm l (p₁.mem_iff.mpr hl))
      (fun a ha b hb => hval a (p₁.mem_iff.mpr ha) b (p₁.mem_iff.mpr hb))
      st hst

/-! ### Canonical blocks (well-formed replies) -/

/-- Processing one canonical block followed by a blank line: flush exactly
one record, every field populated from its own line, and reset. -/
lemma foldl_block {b : List String} (hb : BlockOK b) (acc : List Rec) :
    List.foldl stepT (acc, initParsed) (b ++ [""]) =
      (acc ++ [blockRecord b], initParsed) := by
  unfold BlockOK at hb
  rcases b with _ | ⟨l0, b⟩; · simp [canonKeys] at hb
  rcases b with _ | ⟨l1, b⟩; · simp [canonKeys] at hb
  rcases b with _ | ⟨l2, b⟩; · simp [canonKeys] at hb
  rcases b with _ | ⟨l3, b⟩; · simp [canonKeys] at hb
  rcases b with _ | ⟨l4, b⟩; · simp [canonKeys] at hb
  rcases b with _ | ⟨l5, b⟩; · simp [canonKeys] at hb
  rcases b with _ | ⟨l6, b⟩; · simp [canonKeys] at hb
  rcases b with _ | ⟨l7, b⟩; · simp [canonKeys] at hb
  rcases b with _ | ⟨l8, b⟩; · simp [canonKeys] at hb
  rcases b with _ | ⟨l9, b⟩
  swap; · simp [canonKeys] at hb
  simp only [List.map_cons, List.map_nil, canonKeys, List.cons.injEq,
    and_true] at hb
  obtain ⟨h0, h1, h2, h3, h4, h5, h6, h7, h8⟩ := hb
  simp only [List.cons_append, List.nil_append, List.foldl_cons, List.foldl_nil]
  rw [stepT_upd h0 (by decide), stepT_upd h1 (by decide),
    stepT_upd h2 (by decide), stepT_upd h3 (by decide),
    stepT_upd h4 (by decide), stepT_upd h5 (by decide),
    stepT_upd h6 (by decide), stepT_upd h7 (by decide),
    stepT_term h8, stepT_skip lineField_blank]
  rfl

/-- Processing a sequence of canonical blocks, each followed by a blank
line: one flushed record per block, in order. -/
lemma foldl_blocks {blocks : List (List String)}
    (h : ∀ b ∈ blocks, BlockOK b) (acc : List Rec) :
    List.foldl stepT (acc, initParsed)
        ((blocks.map (fun b => b ++ [""])).flatten) =
      (acc ++ blocks.map blockRecord, initParsed) := by
  induction blocks generalizing acc with
  | nil => simp
  | cons b tl ih =>
    rw [List.map_cons, List.flatten_cons, List.foldl_append,
      foldl_block (h b (List.mem_cons_self _ _)) acc,
      ih (fun b' hb' => h b' (List.mem_cons_of_mem _ hb')) (acc ++ [blockRecord b])]
    simp

/-- Lines among which no one is recognized as the terminal
`personal information` field never flush a record. -/
lemma foldl_no_flush {tail : List String}
    (h : ∀ l ∈ tail, lineField l ≠ some "personal information") :
    ∀ st : PState, (tail.foldl stepT st).1 = st.1 := by
  induction tail with
  | nil => intro st; rfl
  | cons a tl ih =>
    intro st
    rw [List.foldl_cons, ih (fun l hl => h l (by simp [hl]))]
    cases hf : lineField a with
    | none => rw [stepT_skip hf]
    | some f =>
      have hterm : f ≠ "personal information" :=
        fun hh => h a (by simp) (hf.trans (by rw [hh]))
      rw [stepT_upd hf hterm]

/-! ## Claim theorems -/

/-- C6: for every input string whatsoever, the parser terminates normally
and returns a (possibly empty) list of records, never raising: the
fallible embedding (where the `split(':', 1)[1]` indexing may fail)
always succeeds and agrees with the total parser. -/
theorem c6_parser_never_raises (s : String) :
    parseAnalysisE s = some (parse_analysis s) := by
  unfold parseAnalysisE parse_analysis parseLines
  rw [foldlM_stepE_eq]
  rfl

/-- C7: every record produced by the parser has exactly the nine fixed
fields, in order, each bound to a string value; every field whose value is
not the empty-string default was observed on some input line recognized as
that field (so unobserved fields stay at the empty string, never null). -/
theorem c7_record_shape {s : String} {r : Rec} (h : r ∈ parse_analysis s) :
    r.map Prod.fst = canonKeys ∧
      ∀ k v, (k, v) ∈ r → v ≠ "" →
        ∃ l ∈ pySplitLines s, lineField l = some k ∧ lineVal l = v :=
  ⟨parse_analysis_keys h, parse_analysis_prov h⟩

/-- C7 witness: the concrete two-line reply `Column: id` /
`Personal Information: No` produces a record of the canonical shape whose
non-empty `column` value comes from an input line. -/
theorem c7_record_shape_witness :
    ([("column", "id"), ("description", ""), ("type", ""), ("collection", ""),
      ("data source", ""), ("purpose", ""), ("legal basis", ""),
      ("personal data", ""), ("personal information", "No")] : Rec).map Prod.fst
        = canonKeys ∧
      ∀ k v, (k, v) ∈
          ([("column", "id"), ("description", ""), ("type", ""),
            ("collection", ""), ("data source", ""), ("purpose", ""),
            ("legal basis", ""), ("personal data", ""),
            ("personal information", "No")] : Rec) → v ≠ "" →
        ∃ l ∈ pySplitLines "Column: id\nPersonal Information: No",
          lineField l = some k ∧ lineVal l = v :=
  c7_record_shape (s := "Column: id\nPersonal Information: No") (by decide)

/-- C2 counterexample: a reply whose last (and only) record omits the
trailing `Personal Information` field parses to the empty list — the
record is not flushed and its observed `column`/`description` values are
lost, contrary to the claim. -/
theorem c2_counterexample :
    parse_analysis "Column: id\nDescription: primary key" = [] := by decide

/-- C2 amended: the parser flushes a record only at a
`personal information` close event; any trailing lines containing no such
line (in particular a last record missing its trailing fields including
`Personal Information`) contribute nothing — the unfinished record is
silently dropped, though the parser still returns normally. -/
theorem c2_trailing_lines_dropped {ls tail : List String}
    (h : ∀ l ∈ tail, lineField l ≠ some "personal information") :
    parseLines (ls ++ tail) = parseLines ls := by
  unfold parseLines
  rw [List.foldl_append, foldl_no_flush h]

/-- C2 witness: the two observed-but-unterminated lines are dropped. -/
theorem c2_trailing_lines_dropped_witness :
    parseLines ([] ++ ["Column: id", "Description: primary key"]) =
      parseLines [] :=
  c2_trailing_lines_dropped (by decide)

/-- C3 counterexample: moving the `Personal Information` line to the front
of a block changes the parser output (the early flush loses the `column`
value to a never-flushed successor record), so permutation invariance
fails as stated. -/
theorem c3_counterexample :
    parse_analysis "Personal Information: No\nColumn: id" ≠
      parse_analysis "Column: id\nPersonal Information: No" := by decide

/-- C3 amended: permuting field lines within a block leaves the parser
output unchanged provided the permuted lines do not include the terminal
`Personal Information` line (the flush trigger must keep its position) and
lines recognized as the same field carry the same value (e.g. the fields
are pairwise distinct). -/
theorem c3_nonterminal_permutation_invariance
    {pre mid mid2 post : List String} (hperm : mid.Perm mid2)
    (hterm : ∀ l ∈ mid, lineField l ≠ some "personal information")
    (hval : ∀ x ∈ mid, ∀ y ∈ mid, lineField x = lineField y →
      lineVal x = lineVal y) :
    parseLines (pre ++ mid ++ post) = parseLines (pre ++ mid2 ++ post) := by
  have h0 : keysSup (([], initParsed) : PState) := by
    unfold keysSup
    rw [initParsed_keys]
    exact fun x hx => hx
  have hmid := foldl_stepT_perm hperm hterm hval
    (List.foldl stepT ([], initParsed) pre) (keysSup_foldl h0 pre)
  unfold parseLines
  rw [List.foldl_append, List.foldl_append, List.foldl_append,
    List.foldl_append, hmid]

/-- C3 witness: swapping the `Column` and `Description` lines ahead of the
terminal line does not change the output. -/
theorem c3_nonterminal_permutation_invariance_witness :
    parseLines ([] ++ ["Column: id", "Description: primary key"] ++
        ["Personal Information: No"]) =
      parseLines ([] ++ ["Description: primary key", "Column: id"] ++
        ["Personal Information: No"]) :=
  c3_nonterminal_permutation_invariance (List.Perm.swap _ _ _)
    (by decide) (by decide)

/-- C5 counterexample: a fully canonical, well-formed nine-line block
whose `Description` value happens to contain the word `column` is not
parsed with each field equal to the value after its label: the substring
match stores the description text into the `column` field instead. -/
theorem c5_counterexample :
    parse_analysis
        ("Column: id\nDescription: the id column\nType: Required\nCollection Method: SYSTEM_SET\nData Source: ALL\nPrimary Purpose: identify rows\nLegal Basis: contract\nPersonal Data: No\nPersonal Information: No") ≠
      [[("column", "id"), ("description", "the id column"),
        ("type", "Required"), ("collection", "SYSTEM_SET"),
        ("data source", "ALL"), ("purpose", "identify rows"),
        ("legal basis", "contract"), ("personal data", "No"),
        ("personal information", "No")]] := by decide

/-- C5 amended: for every reply made of blank-line separated blocks in
which each of the nine lines is recognized (by the parser's first-match
substring rule) as its own canonical field in canonical order, the parser
produces exactly one record per block, in block order, with every field
equal to the stripped text after the first colon of its line. -/
theorem c5_wellformed_blocks {blocks : List (List String)}
    (h : ∀ b ∈ blocks, BlockOK b) :
    parseLines ((blocks.map (fun b => b ++ [""])).flatten) =
      blocks.map blockRecord := by
  unfold parseLines
  rw [foldl_blocks h]
  simp

/-- C5 witness: two canonical blocks parse to exactly their two records,
in order. -/
theorem c5_wellformed_blocks_witness :
    parseLines ((([["Column: id", "Description: primary key",
        "Type: Required", "Collection Method: SYSTEM_SET",
        "Data Source: ALL", "Primary Purpose: identify rows",
        "Legal Basis: necessary for contract", "Personal Data: No",
        "Personal Information: No"],
       ["Column: email", "Description: user email address",
        "Type: Required", "Collection Method: USER_PROVIDED",
        "Data Source: REGISTERED_USERS", "Primary Purpose: contact the user",
        "Legal Basis: consent", "Personal Data: Yes",
        "Personal Information: Yes"]]).map (fun b => b ++ [""])).flatten) =
      ([["Column: id", "Description: primary key",
        "Type: Required", "Collection Method: SYSTEM_SET",
        "Data Source: ALL", "Primary Purpose: identify rows",
        "Legal Basis: necessary for contract", "Personal Data: No",
        "Personal Information: No"],
       ["Column: email", "Description: user email address",
        "Type: Required", "Collection Method: USER_PROVIDED",
        "Data Source: REGISTERED_USERS", "Primary Purpose: contact the user",
        "Legal Basis: consent", "Personal Data: Yes",
        "Personal Information: Yes"]]).map blockRecord :=
  c5_wellformed_blocks (by decide)

/-! ### String-splitting lemmas for C8 -/

lemma strData_append (s t : String) : (s ++ t).data = s.data ++ t.data := by
  cases s; cases t; rfl

lemma strMk_data (s : String) : String.mk s.data = s := by
  cases s; rfl

lemma contains_colon_of_append {l r : List Char} :
    (l ++ ':' :: r).contains ':' = true := by
  induction l with
  | nil => simp [List.contains_cons]
  | cons c tl ih => simp [List.contains_cons, ih]

lemma takeWhile_append_colon {l r : List Char} (h : (':' : Char) ∉ l) :
    (l ++ ':' :: r).takeWhile (fun c => c != ':') = l := by
  induction l with
  | nil => simp
  | cons c tl ih =>
    have hc : c ≠ ':' := fun hh => h (hh ▸ List.mem_cons_self c tl)
    have htl : (':' : Char) ∉ tl := fun hh => h (List.mem_cons_of_mem c hh)
    simp [List.takeWhile_cons, hc, ih htl]

lemma dropWhile_append_colon {l r : List Char} (h : (':' : Char) ∉ l) :
    (l ++ ':' :: r).dropWhile (fun c => c != ':') = ':' :: r := by
  induction l with
  | nil => simp
  | cons c tl ih =>
    have hc : c ≠ ':' := fun hh => h (hh ▸ List.mem_cons_self c tl)
    have htl : (':' : Char) ∉ tl := fun hh => h (List.mem_cons_of_mem c hh)
    simp [List.dropWhile_cons, hc, ih htl]

/-- C8: `split(':', 1)` splits a line at its first colon only, so a
field value containing further colons is kept whole: concretely, the line
`Legal Basis: GDPR Art. 6: consent` parses with `legal basis` bound to
`GDPR Art. 6: consent`, not truncated at the second colon. -/
theorem c8_first_colon_split {pre post : String}
    (h : (':' : Char) ∉ pre.data) :
    splitOnceColon (pre ++ ":" ++ post) = [pre, post] ∧
      parse_analysis
          "Legal Basis: GDPR Art. 6: consent\nPersonal Information: No" =
        [[("column", ""), ("description", ""), ("type", ""),
          ("collection", ""), ("data source", ""), ("purpose", ""),
          ("legal basis", "GDPR Art. 6: consent"), ("personal data", ""),
          ("personal information", "No")]] := by
  constructor
  · have hdata : (pre ++ ":" ++ post).data = pre.data ++ ':' :: post.data := by
      rw [strData_append, strData_append]
      simp [List.append_assoc]
    have hcol : hasColon (pre ++ ":" ++ post) = true := by
      unfold hasColon
      rw [hdata]
      exact contains_colon_of_append
    rw [splitOnceColon_of_hasColon hcol, hdata,
      takeWhile_append_colon h, dropWhile_append_colon h]
    simp [strMk_data]
  · decide

/-- C8 witness: the splitting fact applied to the spec's example line. -/
theorem c8_first_colon_split_witness :
    splitOnceColon ("Legal Basis" ++ ":" ++ " GDPR Art. 6: consent") =
        ["Legal Basis", " GDPR Art. 6: consent"] ∧
      parse_analysis
          "Legal Basis: GDPR Art. 6: consent\nPersonal Information: No" =
        [[("column", ""), ("description", ""), ("type", ""),
          ("collection", ""), ("data source", ""), ("purpose", ""),
          ("legal basis", "GDPR Art. 6: consent"), ("personal data", ""),
          ("personal information", "No")]] :=
  c8_first_colon_split (by decide)

/-! ### Sheet-builder lemmas for C4 -/

lemma injectRec_keys (r : Rec) :
    (injectRec r).map Prod.fst = r.map Prod.fst := by
  simp [injectRec]

/-- When every required field is absent from the record, the row is built
from defaults only and no diagnostic is appended. -/
lemma buildRow_all_absent (t : String) {item : ORow}
    (h : ∀ fd ∈ required_fields, pyGet? item fd.1 = none) :
    buildRow t item =
      (("Table", some t) :: required_fields.map (fun fd => (fd.1, some "")),
        []) := by
  have h1 := h ("Column", "") (by decide)
  have h2 := h ("Description", "") (by decide)
  have h3 := h ("Data Type", "") (by decide)
  have h4 := h ("Collection Method", "") (by decide)
  have h5 := h ("Data Source", "") (by decide)
  have h6 := h ("Primary Purpose", "") (by decide)
  have h7 := h ("Legal Basis", "") (by decide)
  have h8 := h ("Personal Data", "") (by decide)
  have h9 := h ("Personal Information", "") (by decide)
  simp [buildRow, required_fields, h1, h2, h3, h4, h5, h6, h7, h8, h9,
    dictSet]

/-- C4: the parser emits lowercase keys (`column`, `data source`, ...)
while the sheet builder looks up capitalized required-field names
(`Column`, `Data Source`, ...); no lookup ever succeeds, so every
generated row carries the empty string in all nine classification columns
and only the `Table` cell carries information — and no diagnostic is
logged. -/
theorem c4_key_mismatch_blank_rows {s : String} {r : Rec} (t : String)
    (h : r ∈ parse_analysis s) :
    (∀ fd ∈ required_fields, pyGet? (injectRec r) fd.1 = none) ∧
      buildRow t (injectRec r) =
        (("Table", some t) ::
          required_fields.map (fun fd => (fd.1, some "")), []) := by
  have hkeys : (injectRec r).map Prod.fst = canonKeys := by
    rw [injectRec_keys, parse_analysis_keys h]
  have habs : ∀ fd ∈ required_fields, pyGet? (injectRec r) fd.1 = none := by
    intro fd hfd
    apply pyGet?_eq_none
    rw [hkeys]
    revert hfd
    revert fd
    decide
  exact ⟨habs, buildRow_all_absent t habs⟩

/-- C4 witness: the record parsed from a well-formed reply produces a row
whose nine classification cells are all empty. -/
theorem c4_key_mismatch_blank_rows_witness :
    (∀ fd ∈ required_fields,
        pyGet? (injectRec [("column", "id"), ("description", ""),
          ("type", ""), ("collection", ""), ("data source", ""),
          ("purpose", ""), ("legal basis", ""), ("personal data", ""),
          ("personal information", "No")]) fd.1 = none) ∧
      buildRow "users" (injectRec [("column", "id"), ("description", ""),
          ("type", ""), ("collection", ""), ("data source", ""),
          ("purpose", ""), ("legal basis", ""), ("personal data", ""),
          ("personal information", "No")]) =
        (("Table", some "users") ::
          required_fields.map (fun fd => (fd.1, some "")), []) :=
  c4_key_mismatch_blank_rows
    (s := "Column: id\nPersonal Information: No") "users" (by decide)

/-- C1: evaluating the sheet builder on a record from which every required
field is absent: no diagnostic line is appended to the external log (the
code tests `value is None` after defaulting a missing key to the empty
string, so absence can never trigger the log) and the row is emitted with
empty-string defaults; the diagnostic fires only for a field that is
present with a null value. -/
theorem c1_absent_field_silently_defaulted :
    create_detailed_analysis_sheet [⟨"users", [[]]⟩] =
      ([[("Table", some "users"), ("Column", some ""),
         ("Description", some ""), ("Data Type", some ""),
         ("Collection Method", some ""), ("Data Source", some ""),
         ("Primary Purpose", some ""), ("Legal Basis", some ""),
         ("Personal Data", some ""), ("Personal Information", some "")]],
        []) ∧
    create_detailed_analysis_sheet [⟨"users", [[("Column", none)]]⟩] =
      ([[("Table", some "users"), ("Column", none),
         ("Description", some ""), ("Data Type", some ""),
         ("Collection Method", some ""), ("Data Source", some ""),
         ("Primary Purpose", some ""), ("Legal Basis", some ""),
         ("Personal Data", some ""), ("Personal Information", some "")]],
        [missingFieldMsg "Column" "users"]) := by
  constructor
  · decide
  · decide

/-- C9: the startup sequence never aborts on a missing configuration
value: `get_credentials` returns the credentials dict for every
environment (it performs no missing-value check), component setup finds
all five keys present (their values possibly null) and succeeds, so the
run proceeds to catalog queries and model calls; concretely, with
`GEMINI_API_KEY` unset the startup still returns a component set whose API
key is null. -/
theorem c9_startup_never_aborts :
    (∀ env : String → Option String,
      startup env = Except.ok ⟨env "DB_USER", env "DB_PASSWORD",
        env "DB_HOST", env "DB_DATABASE", env "GEMINI_API_KEY"⟩) ∧
    startup (fun k => if k = "GEMINI_API_KEY" then none else some "x") =
      Except.ok ⟨some "x", some "x", some "x", some "x", none⟩ := by
  constructor
  · intro env; rfl
  · rfl

/-- C10: a reply that parses to the empty record list is dropped by the
caller's truthiness test exactly like an API failure: the table appears in
no accumulated result, hence in no spreadsheet row, and no diagnostic line
is written for it. -/
theorem c10_empty_parse_table_omitted {name reply : String}
    (h : parse_analysis reply = []) :
    process_schema_with_ai [(name, some reply)] = [] ∧
      process_schema_with_ai [(name, none)] = [] ∧
      create_detailed_analysis_sheet
        (injectResults (process_schema_with_ai [(name, some reply)])) =
        ([], []) := by
  have h1 : process_schema_with_ai [(name, some reply)] = [] := by
    simp [process_schema_with_ai, analyze_table_schema_data, h]
  refine ⟨h1, by simp [process_schema_with_ai, analyze_table_schema_data], ?_⟩
  rw [h1]
  rfl

/-- C10 witness: a reply with no recognizable field line parses to `[]`
and the table is omitted from results, report and log. -/
theorem c10_empty_parse_table_omitted_witness :
    process_schema_with_ai
        [("users", some "The schema could not be analyzed.")] = [] ∧
      process_schema_with_ai [("users", none)] = [] ∧
      create_detailed_analysis_sheet
        (injectResults (process_schema_with_ai
          [("users", some "The schema could not be analyzed.")])) =
        ([], []) :=
  @c10_empty_parse_table_omitted "users" "The schema could not be analyzed."
    (by decide)

end DBPrivacy
